import Mathlib

/-!
Verification of the WebSocket test client (`src/ripple/test/impl/WSClient.cpp`)
of rippled: the inbox data structure (`msgs_`, `push_front` / `getMsg` /
`findMsg`), the `invoke` request/response normalization, the background
reader step (`on_read_msg`), and endpoint resolution (`getEndpoint`).

The embedding models `Json::Value` documents as an inductive type whose
object constructor carries an association list of members, with member
access, membership test, assignment and removal mirroring the jsoncpp
operations used by the client.
-/

set_option autoImplicit false

namespace WSClient

/-- A JSON document, as the subset of `Json::Value` the client manipulates:
null (the default/empty document), booleans, integers, strings, arrays and
objects (an association list of named members). -/
inductive Json where
  | null
  | bool (b : Bool)
  | num (n : Int)
  | str (s : String)
  | arr (elems : List Json)
  | obj (members : List (String × Json))

/-- First member bound to key `k`, as `Json::Value::find` on an object's
member map. -/
def lookupKey (k : String) : List (String × Json) → Option Json
  | [] => none
  | (k', v) :: rest => if k' = k then some v else lookupKey k rest

/-- Member assignment on an object's member list: replace the member named
`k` in place, or append it, as assignment through `Json::Value::operator[]`
resolving a member reference. -/
def setKey (k : String) (v : Json) : List (String × Json) → List (String × Json)
  | [] => [(k, v)]
  | (k', v') :: rest => if k' = k then (k, v) :: rest else (k', v') :: setKey k v rest

/-- Member removal, as `Json::Value::removeMember`. -/
def removeKey (k : String) : List (String × Json) → List (String × Json)
  | [] => []
  | (k', v') :: rest => if k' = k then rest else (k', v') :: removeKey k rest

/-- `jv[k]` read access: the member if present, null otherwise
(const `Json::Value::operator[]` returns the null singleton when absent). -/
def getMember (k : String) : Json → Json
  | .obj ms => (lookupKey k ms).getD .null
  | _ => .null

/-- `jv.isMember(k)`. -/
def isMember (k : String) (j : Json) : Bool :=
  match j with
  | .obj ms => (lookupKey k ms).isSome
  | _ => false

/-- `jv[k] = v` write access: on an object replaces/appends the member, on
the null document creates a one-member object (jsoncpp asserts on any other
receiver type; that path is never exercised by the client on well-formed
traffic and is modelled as the identity). -/
def setMember (k : String) (v : Json) : Json → Json
  | .obj ms => .obj (setKey k v ms)
  | .null => .obj [(k, v)]
  | j => j

/-- `jv.removeMember(k)` (a no-op on non-objects). -/
def removeMember (k : String) : Json → Json
  | .obj ms => .obj (removeKey k ms)
  | j => j

/-- `jv == s` for a string literal `s`: true exactly when `jv` is a string
with that value (`Json::Value` equality against a `StaticString` compares
types first). -/
def jsonEqStr (j : Json) (s : String) : Bool :=
  match j with
  | .str t => t = s
  | _ => false

/-! ## The inbox (`msgs_`) and its operations

The inbox is the `std::list<std::shared_ptr<msg>> msgs_`, modelled
front-first: the head of the Lean list is the front of the `std::list`. -/

/-- `on_read_msg` enqueues with `msgs_.push_front(m)`. -/
def push (m : Json) (inbox : List Json) : List Json :=
  m :: inbox

/-- `getMsg`: once the wait predicate `!msgs_.empty()` holds it takes
`msgs_.back()` and `pop_back()`s it; on timeout (here: empty inbox) it
returns nothing and leaves the list untouched. -/
def getMsg (inbox : List Json) : Option (Json × List Json) :=
  match inbox.getLast? with
  | none => none
  | some m => some (m, inbox.dropLast)

/-- The scan `findMsg` runs under its wait predicate: walk `msgs_` from
`begin()` to `end()`, and at the first element satisfying `pred` erase it
and hand it out; otherwise report no match with the list intact. -/
def scanClaim (pred : Json → Bool) : List Json → Option Json × List Json
  | [] => (none, [])
  | j :: rest =>
    if pred j then (some j, rest)
    else
      let r := scanClaim pred rest
      (r.1, j :: r.2)

/-- The predicate `invoke` passes to `findMsg`:
`jv[jss::type] == jss::response`. -/
def respPred (j : Json) : Bool :=
  jsonEqStr (getMember "type" j) "response"

/-- Result normalization in `invoke` once `findMsg` produced a response
document: strip `type`; if the status is the string `error`, repackage as
`{result: <doc minus type>, error: <its error, if any>, status: error}`;
otherwise if both a `status` and a `result` member exist, copy the status
into the nested result; return the document. -/
def normalize (m : Json) : Json :=
  let jv := removeMember "type" m
  if isMember "status" jv && jsonEqStr (getMember "status" jv) "error" then
    let ret := setMember "result" jv Json.null
    let ret := if isMember "error" jv then setMember "error" (getMember "error" jv) ret else ret
    setMember "status" (Json.str "error") ret
  else if isMember "status" jv && isMember "result" jv then
    setMember "result" (setMember "status" (getMember "status" jv) (getMember "result" jv)) jv
  else
    jv

/-- The receive half of `invoke`: claim the first buffered message whose
type is `response` and normalize it; on timeout (no such message) return
the default document (`return {};`). -/
def invokeRecv (inbox : List Json) : Json :=
  match scanClaim respPred inbox with
  | (some jv, _) => normalize jv
  | (none, _) => Json.null

/-- `Json::Value::operator bool`: true exactly for non-null documents. -/
def truthy : Json → Bool
  | .null => false
  | _ => true

/-- The send half of `invoke`: `Json::Value jp; if(params) jp = params;
jp[jss::command] = cmd;` — the document written to the wire. -/
def outbound (cmd : String) (params : Json) : Json :=
  let jp := if truthy params then params else Json.null
  setMember "command" (Json.str cmd) jp

/-- `params` is a receiver `jp[jss::command] = cmd` accepts without
asserting: the null document or an object. -/
def isObjOrNull : Json → Bool
  | .null => true
  | .obj _ => true
  | _ => false

/-! ## Draining the inbox by repeated `getMsg` calls -/

/-- Repeated `getMsg` calls, fuelled: each successful call removes exactly
one message, so fuel equal to the inbox length runs the drain to
completion. -/
def drainFuel : Nat → List Json → List Json
  | 0, _ => []
  | fuel + 1, inbox =>
    match getMsg inbox with
    | none => []
    | some (m, rest) => m :: drainFuel fuel rest

/-- Unconstrained draining: call `getMsg` until it reports an empty inbox,
collecting the returned messages in order. -/
def drain (inbox : List Json) : List Json :=
  drainFuel inbox.length inbox

/-- The inbox produced by pushing `msgs` in order (head of `msgs` pushed
first) onto an empty inbox. -/
def pushAll (msgs : List Json) : List Json :=
  msgs.foldl (fun inbox m => push m inbox) []

/-! ## The background reader step (`on_read_msg`) -/

/-- Completion of one asynchronous read: either a whole text frame or an
error (including close). -/
inductive ReadEvent where
  | success (frame : String)
  | failure

/-- The state `on_read_msg` touches: the inbox, and whether a next
asynchronous read is in flight. -/
structure ClientState where
  inbox : List Json
  readPending : Bool

/-- Modelled from the spec: `Json::Reader::parse` is not among the given
sources; the spec fixes its policy as a best-effort parse that yields an
empty/default document on malformed input rather than failing. The parser
itself is abstracted as `parse`; this wrapper applies the policy. -/
def bestEffortParse (parse : String → Option Json) (s : String) : Json :=
  (parse s).getD Json.null

/-- One iteration of the background reader: on an error, return without
pushing a message and without issuing another read; otherwise parse the
frame best-effort, `push_front` the message, and issue the next
asynchronous read. -/
def onReadMsg (parse : String → Option Json) (ev : ReadEvent) (st : ClientState) :
    ClientState :=
  match ev with
  | .failure => { st with readPending := false }
  | .success frame =>
    { inbox := push (bestEffortParse parse frame) st.inbox, readPending := true }

/-! ## Endpoint resolution (`getEndpoint`) -/

/-- A parsed `[port_name]` config section as `getEndpoint` consumes it:
the IPv4 address (as its 32-bit value), the port, and the protocol set.
`parse_Port` itself is external to the given sources; its output is taken
as given. -/
structure ParsedPort where
  ip : Nat
  port : Nat
  protocol : List String

/-- The configuration as `getEndpoint` reads it: the values listed in the
`[server]` section, and for each name the parsed port section when
`cfg.exists(name)` holds. -/
structure BasicConfig where
  serverValues : List String
  sections : String → Option ParsedPort

/-- The IPv4 wildcard address `0.0.0.0`. -/
def wildcardIp : Nat := 0x00000000

/-- The IPv4 loopback address `127.0.0.1`. -/
def loopbackIp : Nat := 0x7f000001

/-- The loop body of `getEndpoint`: walk the `[server]` values in order,
skip names with no config section, skip sections whose protocol set lacks
`ps`, and return the first remaining section's endpoint — substituting
loopback for the wildcard address. Falling off the loop throws
`Missing WebSocket port`. -/
def getEndpointGo (cfg : BasicConfig) (ps : String) :
    List String → Except String (Nat × Nat)
  | [] => .error "Missing WebSocket port"
  | name :: rest =>
    match cfg.sections name with
    | none => getEndpointGo cfg ps rest
    | some pp =>
      if ps ∈ pp.protocol then
        .ok (if pp.ip = wildcardIp then loopbackIp else pp.ip, pp.port)
      else getEndpointGo cfg ps rest

/-- `getEndpoint(cfg, v2)`: resolve against protocol `ws2` when `v2`, else
`ws`. -/
def getEndpoint (cfg : BasicConfig) (v2 : Bool) : Except String (Nat × Nat) :=
  getEndpointGo cfg (if v2 then "ws2" else "ws") cfg.serverValues

/-- The first parsed section (in `[server]` order, existing sections only)
whose protocol set contains `ps` — the section the loop in `getEndpoint`
settles on. -/
def firstMatchingGo (cfg : BasicConfig) (ps : String) :
    List String → Option ParsedPort
  | [] => none
  | name :: rest =>
    match cfg.sections name with
    | none => firstMatchingGo cfg ps rest
    | some pp =>
      if ps ∈ pp.protocol then some pp else firstMatchingGo cfg ps rest

/-- The first matching section for the protocol variant `getEndpoint`
resolves. -/
def firstMatching (cfg : BasicConfig) (v2 : Bool) : Option ParsedPort :=
  firstMatchingGo cfg (if v2 then "ws2" else "ws") cfg.serverValues

/-! ## Concrete documents used as witnesses and counterexamples -/

/-- `{type: "response", status: "success", result: {foo: 1}}`. -/
def c2msg : Json :=
  .obj [("type", .str "response"), ("status", .str "success"),
        ("result", .obj [("foo", .num 1)])]

/-- `{type: "response", status: "success"}`. -/
def c3msg : Json :=
  .obj [("type", .str "response"), ("status", .str "success")]

/-- An error response: `{type: "response", status: "error",
error: "badSyntax"}`. -/
def errMsg : Json :=
  .obj [("type", .str "response"), ("status", .str "error"),
        ("error", .str "badSyntax")]

/-- An unsolicited notification: `{type: "transaction"}`. -/
def noteMsg : Json :=
  .obj [("type", .str "transaction")]

/-- A plain response: `{type: "response"}`. -/
def respMsg : Json :=
  .obj [("type", .str "response")]

/-! ## Helper lemmas on member operations -/

theorem lookupKey_setKey_self (k : String) (v : Json) (ms : List (String × Json)) :
    lookupKey k (setKey k v ms) = some v := by
  induction ms with
  | nil => simp [setKey, lookupKey]
  | cons p rest ih =>
    obtain ⟨k', v'⟩ := p
    by_cases h : k' = k
    · subst h
      simp [setKey, lookupKey]
    · simp [setKey, lookupKey, h, ih]

theorem lookupKey_setKey_ne (k k₁ : String) (v : Json) (ms : List (String × Json))
    (h : k ≠ k₁) : lookupKey k (setKey k₁ v ms) = lookupKey k ms := by
  induction ms with
  | nil => simp [setKey, lookupKey, Ne.symm h]
  | cons p rest ih =>
    obtain ⟨k', v'⟩ := p
    by_cases h' : k' = k₁
    · subst h'
      simp [setKey, lookupKey, Ne.symm h]
    · simp [setKey, lookupKey, h', ih]

theorem lookupKey_removeKey_ne (k k₁ : String) (ms : List (String × Json))
    (h : k ≠ k₁) : lookupKey k (removeKey k₁ ms) = lookupKey k ms := by
  induction ms with
  | nil => simp [removeKey]
  | cons p rest ih =>
    obtain ⟨k', v'⟩ := p
    by_cases h' : k' = k₁
    · subst h'
      simp [removeKey, lookupKey, Ne.symm h]
    · simp [removeKey, lookupKey, h', ih]

theorem getMember_setMember_self (k : String) (v : Json) (j : Json)
    (h : isObjOrNull j = true) : getMember k (setMember k v j) = v := by
  cases j <;> simp_all [isObjOrNull, setMember, getMember, lookupKey,
    lookupKey_setKey_self]

theorem getMember_setMember_ne (k k₁ : String) (v : Json) (j : Json)
    (h : k ≠ k₁) : getMember k (setMember k₁ v j) = getMember k j := by
  cases j <;> simp [setMember, getMember, lookupKey, Ne.symm h,
    lookupKey_setKey_ne _ _ _ _ h]

theorem getMember_removeMember_ne (k k₁ : String) (j : Json)
    (h : k ≠ k₁) : getMember k (removeMember k₁ j) = getMember k j := by
  cases j <;> simp [removeMember, getMember, lookupKey_removeKey_ne _ _ _ h]

theorem isMember_removeMember_ne (k k₁ : String) (j : Json)
    (h : k ≠ k₁) : isMember k (removeMember k₁ j) = isMember k j := by
  cases j <;> simp [removeMember, isMember, lookupKey_removeKey_ne _ _ _ h]

/-! ## Helper lemmas on the inbox operations -/

theorem scanClaim_of_no_match (pred : Json → Bool) (inbox : List Json)
    (h : ∀ x ∈ inbox, pred x = false) :
    scanClaim pred inbox = (none, inbox) := by
  induction inbox with
  | nil => simp [scanClaim]
  | cons j rest ih =>
    have hj : pred j = false := h j (List.mem_cons_self j rest)
    have hrest := ih fun x hx => h x (List.mem_cons_of_mem j hx)
    simp [scanClaim, hj, hrest]

theorem scanClaim_eq_some (pred : Json → Bool) (inbox inbox' : List Json) (m : Json)
    (h : scanClaim pred inbox = (some m, inbox')) :
    pred m = true ∧
      ∃ pre post, inbox = pre ++ m :: post ∧ inbox' = pre ++ post ∧
        ∀ x ∈ pre, pred x = false := by
  induction inbox generalizing inbox' with
  | nil => simp [scanClaim] at h
  | cons j rest ih =>
    by_cases hj : pred j = true
    · simp [scanClaim, hj] at h
      obtain ⟨hm, hrest⟩ := h
      subst hm
      subst hrest
      exact ⟨hj, [], rest, by simp⟩
    · rw [Bool.not_eq_true] at hj
      simp [scanClaim, hj] at h
      obtain ⟨h1, h2⟩ := h
      rcases hr : scanClaim pred rest with ⟨o, l⟩
      rw [hr] at h1 h2
      simp at h1 h2
      subst h1
      obtain ⟨hpm, pre, post, hdecomp, hrem, hpre⟩ := ih l hr
      refine ⟨hpm, j :: pre, post, ?_, ?_, ?_⟩
      · simp [hdecomp]
      · simp [← h2, hrem]
      · intro x hx
        rcases List.mem_cons.mp hx with hx | hx
        · subst hx; exact hj
        · exact hpre x hx

theorem getMsg_concat (l : List Json) (m : Json) :
    getMsg (l ++ [m]) = some (m, l) := by
  simp [getMsg, List.getLast?_concat]

theorem foldl_push (msgs acc : List Json) :
    List.foldl (fun inbox m => push m inbox) acc msgs = msgs.reverse ++ acc := by
  induction msgs generalizing acc with
  | nil => simp
  | cons m rest ih => simp [push, ih]

theorem pushAll_eq_reverse (msgs : List Json) : pushAll msgs = msgs.reverse := by
  simp [pushAll, foldl_push]

theorem drainFuel_eq_reverse (n : Nat) (l : List Json) (h : l.length ≤ n) :
    drainFuel n l = l.reverse := by
  induction n generalizing l with
  | zero =>
    have : l = [] := List.length_eq_zero.mp (Nat.le_zero.mp h)
    subst this
    simp [drainFuel]
  | succ n ih =>
    rcases List.eq_nil_or_concat' l with rfl | ⟨L, b, rfl⟩
    · simp [drainFuel, getMsg]
    · have hg : getMsg (L ++ [b]) = some (b, L) := getMsg_concat L b
      rw [drainFuel, hg]
      show b :: drainFuel n L = (L ++ [b]).reverse
      rw [ih L (by simpa using Nat.le_of_succ_le_succ (by simpa using h))]
      simp

theorem drain_eq_reverse (l : List Json) : drain l = l.reverse :=
  drainFuel_eq_reverse l.length l (Nat.le_refl _)

/-! ## Helper lemma relating `getEndpoint` to the first matching section -/

theorem getEndpointGo_spec (cfg : BasicConfig) (ps : String) (names : List String) :
    getEndpointGo cfg ps names =
      match firstMatchingGo cfg ps names with
      | some pp =>
        .ok (if pp.ip = wildcardIp then loopbackIp else pp.ip, pp.port)
      | none => .error "Missing WebSocket port" := by
  induction names with
  | nil => simp [getEndpointGo, firstMatchingGo]
  | cons name rest ih =>
    rw [getEndpointGo, firstMatchingGo]
    rcases cfg.sections name with _ | pp
    · exact ih
    · by_cases hp : ps ∈ pp.protocol
      · simp [hp]
      · simp [hp, ih]

theorem isObjOrNull_setMember (k : String) (v : Json) (j : Json)
    (h : isObjOrNull j = true) : isObjOrNull (setMember k v j) = true := by
  cases j <;> simp_all [isObjOrNull, setMember]

theorem normalize_error (m : Json) (herr : getMember "status" m = Json.str "error") :
    getMember "status" (normalize m) = Json.str "error" ∧
    getMember "result" (normalize m) = removeMember "type" m ∧
    (isMember "error" m = true →
      getMember "error" (normalize m) = getMember "error" m) := by
  cases m with
  | null => simp [getMember] at herr
  | bool b => simp [getMember] at herr
  | num n => simp [getMember] at herr
  | str s => simp [getMember] at herr
  | arr es => simp [getMember] at herr
  | obj ms =>
    have hget : (lookupKey "status" ms).getD Json.null = Json.str "error" := herr
    rcases hl : lookupKey "status" ms with _ | v
    · rw [hl] at hget
      simp at hget
    · rw [hl, Option.getD_some] at hget
      subst hget
      have hlk2 : lookupKey "status" (removeKey "type" ms) = some (Json.str "error") := by
        rw [lookupKey_removeKey_ne "status" "type" ms (by decide)]
        exact hl
      have hcond : (isMember "status" (Json.obj (removeKey "type" ms)) &&
          jsonEqStr (getMember "status" (Json.obj (removeKey "type" ms))) "error") = true := by
        simp [isMember, getMember, hlk2, jsonEqStr]
      have hnorm : normalize (Json.obj ms) =
          setMember "status" (Json.str "error")
            (if isMember "error" (Json.obj (removeKey "type" ms)) then
              setMember "error" (getMember "error" (Json.obj (removeKey "type" ms)))
                (setMember "result" (Json.obj (removeKey "type" ms)) Json.null)
            else setMember "result" (Json.obj (removeKey "type" ms)) Json.null) := by
        simp only [normalize, removeMember]
        rw [if_pos hcond]
      by_cases hE : isMember "error" (Json.obj (removeKey "type" ms)) = true
      · rw [hnorm, if_pos hE]
        refine ⟨?_, ?_, ?_⟩
        · exact getMember_setMember_self _ _ _
            (isObjOrNull_setMember _ _ _ (isObjOrNull_setMember _ _ _ (by rfl)))
        · rw [getMember_setMember_ne "result" "status" _ _ (by decide),
              getMember_setMember_ne "result" "error" _ _ (by decide)]
          exact getMember_setMember_self _ _ _ (by rfl)
        · intro _
          rw [getMember_setMember_ne "error" "status" _ _ (by decide),
              getMember_setMember_self _ _ _ (isObjOrNull_setMember _ _ _ (by rfl))]
          exact getMember_removeMember_ne "error" "type" (Json.obj ms) (by decide)
      · rw [hnorm, if_neg hE]
        refine ⟨?_, ?_, ?_⟩
        · exact getMember_setMember_self _ _ _ (isObjOrNull_setMember _ _ _ (by rfl))
        · rw [getMember_setMember_ne "result" "status" _ _ (by decide)]
          exact getMember_setMember_self _ _ _ (by rfl)
        · intro hEm
          exfalso
          apply hE
          rw [show isMember "error" (Json.obj (removeKey "type" ms)) =
              isMember "error" (removeMember "type" (Json.obj ms)) from rfl,
            isMember_removeMember_ne "error" "type" _ (by decide)]
          exact hEm

/-- C1: for every message matched by `invoke`'s response predicate whose
`status` field is the string `error`, `invoke` returns a document whose
`status` is `error`, whose `result` equals the matched message minus its
`type` field, and whose `error` field equals the original one whenever the
original message carried an `error` member. -/
theorem invoke_error_response (inbox inbox' : List Json) (m : Json)
    (hfind : scanClaim respPred inbox = (some m, inbox'))
    (herr : getMember "status" m = Json.str "error") :
    getMember "status" (invokeRecv inbox) = Json.str "error" ∧
    getMember "result" (invokeRecv inbox) = removeMember "type" m ∧
    (isMember "error" m = true →
      getMember "error" (invokeRecv inbox) = getMember "error" m) := by
  have hinv : invokeRecv inbox = normalize m := by
    unfold invokeRecv
    rw [hfind]
  rw [hinv]
  exact normalize_error m herr

/-- Witness for C1: the error response `{type: "response", status: "error",
error: "badSyntax"}` in a singleton inbox. -/
theorem invoke_error_response_witness :
    getMember "status" (invokeRecv [errMsg]) = Json.str "error" ∧
    getMember "result" (invokeRecv [errMsg]) = removeMember "type" errMsg ∧
    (isMember "error" errMsg = true →
      getMember "error" (invokeRecv [errMsg]) = getMember "error" errMsg) :=
  invoke_error_response [errMsg] [] errMsg (by rfl) (by rfl)

/-- Observation: the integer carried by the head message of a list, when
that message is a number. -/
def headNum : List Json → Int
  | .num n :: _ => n
  | _ => 0

/-- C2 counterexample: on the inbox holding exactly
`{type: "response", status: "success", result: {foo: 1}}`, `invoke` yields
`{status: "success", result: {foo: 1, status: "success"}}` — the top-level
`status` member is retained, so the result is not the claimed document
`{result: {foo: 1, status: "success"}}`. -/
theorem invoke_fold_counterexample :
    invokeRecv (push c2msg []) =
      Json.obj [("status", Json.str "success"),
        ("result", Json.obj [("foo", Json.num 1), ("status", Json.str "success")])] ∧
    invokeRecv (push c2msg []) ≠
      Json.obj [("result", Json.obj [("foo", Json.num 1), ("status", Json.str "success")])] := by
  refine ⟨rfl, fun h => ?_⟩
  exact absurd (congrArg (isMember "status") h) (by decide)

/-- C2 amended: pushing `{type: "response", status: "success",
result: {foo: 1}}` and calling `invoke` yields
`{status: "success", result: {foo: 1, status: "success"}}` — the status is
folded into the nested result and also remains at top level. -/
theorem invoke_fold_status :
    invokeRecv (push c2msg []) =
      Json.obj [("status", Json.str "success"),
        ("result", Json.obj [("foo", Json.num 1), ("status", Json.str "success")])] :=
  rfl

/-- C3 counterexample: on the inbox holding exactly
`{type: "response", status: "success"}`, `invoke` returns
`{status: "success"}` — not the empty document and not the default
document: only `type` is stripped, nothing drops the `status`. -/
theorem invoke_status_only_counterexample :
    invokeRecv (push c3msg []) = Json.obj [("status", Json.str "success")] ∧
    invokeRecv (push c3msg []) ≠ Json.obj [] ∧
    invokeRecv (push c3msg []) ≠ Json.null := by
  refine ⟨rfl, fun h => ?_, fun h => ?_⟩
  · exact absurd (congrArg (isMember "status") h) (by decide)
  · exact absurd (congrArg (isMember "status") h) (by decide)

/-- C3 amended: when the single matched message is
`{type: "response", status: "success"}` (no result, no error), `invoke`
returns `{status: "success"}`: the `type` marker is stripped and the
`status` member is kept, there being no nested result to merge it into. -/
theorem invoke_status_only :
    invokeRecv (push c3msg []) = Json.obj [("status", Json.str "success")] :=
  rfl

/-- C4: a successful `findMsg` scan returns the first item in
front-to-back order satisfying the predicate, removes exactly that item,
and never returns an item the predicate rejects. -/
theorem findMsg_first_match (pred : Json → Bool) (inbox inbox' : List Json)
    (m : Json) (h : scanClaim pred inbox = (some m, inbox')) :
    pred m = true ∧
      ∃ pre post, inbox = pre ++ m :: post ∧ inbox' = pre ++ post ∧
        ∀ x ∈ pre, pred x = false :=
  scanClaim_eq_some pred inbox inbox' m h

/-- Witness for C4: scanning `[noteMsg, respMsg]` for a response claims
`respMsg`, leaving `[noteMsg]`. -/
theorem findMsg_first_match_witness :
    respPred respMsg = true ∧
      ∃ pre post, [noteMsg, respMsg] = pre ++ respMsg :: post ∧
        [noteMsg] = pre ++ post ∧ ∀ x ∈ pre, respPred x = false :=
  findMsg_first_match respPred [noteMsg, respMsg] [noteMsg] respMsg (by rfl)

/-- C5: `push` inserts at the front of the sequence, and on any non-empty
inbox reached by pushes a successful `getMsg` removes and returns the
back item — the oldest-inserted message still present. -/
theorem push_front_claim_back (m : Json) (inbox msgs : List Json) :
    push m inbox = m :: inbox ∧
    getMsg (pushAll (m :: msgs)) = some (m, pushAll msgs) := by
  refine ⟨rfl, ?_⟩
  rw [pushAll_eq_reverse, pushAll_eq_reverse, List.reverse_cons, getMsg_concat]

/-- C6 counterexample: pushing `0` then `1` and draining with repeated
`getMsg` calls returns `[0, 1]` (oldest first), not the claimed
most-recent-first order `[1, 0]`. -/
theorem drain_order_counterexample :
    drain (push (Json.num 1) (push (Json.num 0) [])) = [Json.num 0, Json.num 1] ∧
    drain (push (Json.num 1) (push (Json.num 0) [])) ≠ [Json.num 1, Json.num 0] := by
  refine ⟨rfl, fun h => ?_⟩
  exact absurd (congrArg headNum h) (by decide)

/-- C6 amended: for every sequence of pushed messages, unconstrained
draining by repeated `getMsg` calls returns the messages oldest-first, in
arrival order. -/
theorem drain_arrival_order (msgs : List Json) :
    drain (pushAll msgs) = msgs := by
  rw [pushAll_eq_reverse, drain_eq_reverse, List.reverse_reverse]

/-- C7: when no buffered message qualifies, the `findMsg` scan reports no
match and leaves the inbox unchanged, `getMsg` on an empty inbox returns
nothing, and `invoke` returns the default document rather than raising. -/
theorem timeout_returns_nothing (pred : Json → Bool) (inbox inbox2 : List Json)
    (h : ∀ x ∈ inbox, pred x = false)
    (h2 : ∀ x ∈ inbox2, respPred x = false) :
    scanClaim pred inbox = (none, inbox) ∧
    getMsg ([] : List Json) = none ∧
    invokeRecv inbox2 = Json.null := by
  refine ⟨scanClaim_of_no_match pred inbox h, rfl, ?_⟩
  unfold invokeRecv
  rw [scanClaim_of_no_match respPred inbox2 h2]

/-- Witness for C7: a lone notification matches neither a `ledger`-field
predicate nor the response predicate. -/
theorem timeout_returns_nothing_witness :
    scanClaim (fun j => isMember "ledger" j) [noteMsg] = (none, [noteMsg]) ∧
    getMsg ([] : List Json) = none ∧
    invokeRecv [noteMsg] = Json.null :=
  timeout_returns_nothing (fun j => isMember "ledger" j) [noteMsg] [noteMsg]
    (by decide) (by decide)

/-- A parameter document exercising command overriding:
`{a: 1, command: "old"}`. -/
def paramsW : Json :=
  Json.obj [("a", Json.num 1), ("command", Json.str "old")]

/-- C8: the outbound document `invoke` writes is the parameter document
with its `command` member set to the command name (overriding any existing
`command` member and preserving every other member), and it is
`{command: cmd}` alone when the parameters are the empty object or the
default document. -/
theorem outbound_carries_command (cmd : String) (params : Json)
    (h : isObjOrNull params = true) :
    getMember "command" (outbound cmd params) = Json.str cmd ∧
    (∀ k, k ≠ "command" → getMember k (outbound cmd params) = getMember k params) ∧
    outbound cmd (Json.obj []) = Json.obj [("command", Json.str cmd)] ∧
    outbound cmd Json.null = Json.obj [("command", Json.str cmd)] := by
  refine ⟨?_, ?_, rfl, rfl⟩
  · cases params with
    | null => rfl
    | obj ms => exact getMember_setMember_self "command" (Json.str cmd) (Json.obj ms) rfl
    | bool b => simp [isObjOrNull] at h
    | num n => simp [isObjOrNull] at h
    | str s => simp [isObjOrNull] at h
    | arr es => simp [isObjOrNull] at h
  · intro k hk
    cases params with
    | null => simp [outbound, truthy, setMember, getMember, lookupKey, Ne.symm hk]
    | obj ms => exact getMember_setMember_ne k "command" (Json.str cmd) (Json.obj ms) hk
    | bool b => simp [isObjOrNull] at h
    | num n => simp [isObjOrNull] at h
    | str s => simp [isObjOrNull] at h
    | arr es => simp [isObjOrNull] at h

/-- Witness for C8: `invoke("ping", {a: 1, command: "old"})` writes a
document whose `command` is `"ping"` and whose other members come from the
parameters. -/
theorem outbound_carries_command_witness :
    getMember "command" (outbound "ping" paramsW) = Json.str "ping" ∧
    (∀ k, k ≠ "command" → getMember k (outbound "ping" paramsW) = getMember k paramsW) ∧
    outbound "ping" (Json.obj []) = Json.obj [("command", Json.str "ping")] ∧
    outbound "ping" Json.null = Json.obj [("command", Json.str "ping")] :=
  outbound_carries_command "ping" paramsW (by rfl)

/-- C9: one background-reader iteration: an error-free read parses the
frame best-effort (a malformed frame still yields the default document),
pushes exactly that message onto the inbox front and issues the next read;
a read completing with an error terminates the loop with no message
produced and no further read issued. -/
theorem reader_step (parse : String → Option Json) (frame : String)
    (st : ClientState) :
    (onReadMsg parse (.success frame) st).inbox =
      push (bestEffortParse parse frame) st.inbox ∧
    (onReadMsg parse (.success frame) st).readPending = true ∧
    (parse frame = none → bestEffortParse parse frame = Json.null) ∧
    (onReadMsg parse .failure st).inbox = st.inbox ∧
    (onReadMsg parse .failure st).readPending = false := by
  refine ⟨rfl, rfl, fun h => ?_, rfl, rfl⟩
  simp [bestEffortParse, h]

/-- Witness for C9: a parser rejecting every frame (its result defaulted
to the empty document) against the empty idle state. -/
theorem reader_step_witness :
    (onReadMsg (fun _ => none) (.success "not json") ⟨[], true⟩).inbox =
      push (bestEffortParse (fun _ => none) "not json") [] ∧
    (onReadMsg (fun _ => none) (.success "not json") ⟨[], true⟩).readPending = true ∧
    ((fun (_ : String) => (none : Option Json)) "not json" = none →
      bestEffortParse (fun _ => none) "not json" = Json.null) ∧
    (onReadMsg (fun _ => none) ReadEvent.failure ⟨[], true⟩).inbox = [] ∧
    (onReadMsg (fun _ => none) ReadEvent.failure ⟨[], true⟩).readPending = false :=
  reader_step (fun _ => none) "not json" ⟨[], true⟩

/-- C10: `getEndpoint` returns the endpoint of the first `[server]` entry
whose existing section lists the requested protocol variant, substituting
loopback `127.0.0.1` when that section declares the wildcard address
`0.0.0.0`, and throws `Missing WebSocket port` when no section matches. -/
theorem getEndpoint_resolution (cfg : BasicConfig) (v2 : Bool) :
    (∀ pp, firstMatching cfg v2 = some pp →
        getEndpoint cfg v2 =
          Except.ok (if pp.ip = wildcardIp then loopbackIp else pp.ip, pp.port)) ∧
    (firstMatching cfg v2 = none →
        getEndpoint cfg v2 = Except.error "Missing WebSocket port") := by
  constructor
  · intro pp hpp
    unfold firstMatching at hpp
    unfold getEndpoint
    rw [getEndpointGo_spec, hpp]
  · intro hnone
    unfold firstMatching at hnone
    unfold getEndpoint
    rw [getEndpointGo_spec, hnone]

/-- A configuration whose only port section declares the wildcard address
for protocol `ws`. -/
def cfgW : BasicConfig :=
  ⟨["port_ws"], fun n => if n = "port_ws" then some ⟨0, 6006, ["ws"]⟩ else none⟩

/-- A configuration with no existing port section. -/
def cfgEmpty : BasicConfig :=
  ⟨["port_x"], fun _ => none⟩

/-- Witness for C10: the wildcard section resolves to loopback, and a
configuration with no matching section yields the missing-port error. -/
theorem getEndpoint_resolution_witness :
    getEndpoint cfgW false = Except.ok (loopbackIp, 6006) ∧
    getEndpoint cfgEmpty false = Except.error "Missing WebSocket port" := by
  constructor
  · have h := (getEndpoint_resolution cfgW false).1 ⟨0, 6006, ["ws"]⟩ (by rfl)
    simpa [wildcardIp] using h
  · exact (getEndpoint_resolution cfgEmpty false).2 (by rfl)

end WSClient
